import Mathlib

/-!
Verification of `src/crypt.py`: a script that fetches cryptocurrency market
data from the CoinGecko REST API, prints it, saves it to JSON and CSV files,
and plots a bar chart.

The embedding models:
  * JSON values (`JVal`) as parsed by Python's `json` module, with numbers
    restricted to integers (floating-point values are not representable in
    this embedding);
  * the serializer `json.dump(data, file, indent=4)` (`dump` / `dumps`),
    including Python's `ensure_ascii` escaping of strings;
  * the decoder `json.loads` (`parseVal` / `loads`), fuel-indexed;
  * the three classes of the script: `CoinGeckoAPI`, `CryptoDataManager`
    and `CryptoApp`, with HTTP traffic and file-system effects supplied by
    explicit oracles.
-/

set_option linter.unusedVariables false

/-- A JSON value as produced by Python's `json` module, with numbers
restricted to integers. Objects keep their key/value pairs in insertion
order, as Python dicts do. -/
inductive JVal where
  | null
  | bool (b : Bool)
  | num (n : Int)
  | str (s : String)
  | arr (elems : List JVal)
  | obj (fields : List (String × JVal))

/-- Decimal digit character for `n < 10`, as produced by Python's `str`. -/
def digitChar : Nat → Char
  | 0 => '0'
  | 1 => '1'
  | 2 => '2'
  | 3 => '3'
  | 4 => '4'
  | 5 => '5'
  | 6 => '6'
  | 7 => '7'
  | 8 => '8'
  | _ => '9'

/-- Decimal representation of a natural number, most significant digit
first, as produced by Python's `str` on a nonnegative `int`. -/
def natToChars (n : Nat) : List Char :=
  if n < 10 then [digitChar n] else natToChars (n / 10) ++ [digitChar (n % 10)]
termination_by n
decreasing_by exact Nat.div_lt_self (by omega) (by decide)

/-- Decimal representation of an integer, as produced by Python's `str`
(and hence by `json.dump` on an `int`). -/
def intToChars (n : Int) : List Char :=
  if n < 0 then '-' :: natToChars n.natAbs else natToChars n.toNat

/-- Lower-case hexadecimal digit character for `n < 16`, as used in the
`\uXXXX` escapes of Python's `json` encoder. -/
def hexDigitChar : Nat → Char
  | 0 => '0'
  | 1 => '1'
  | 2 => '2'
  | 3 => '3'
  | 4 => '4'
  | 5 => '5'
  | 6 => '6'
  | 7 => '7'
  | 8 => '8'
  | 9 => '9'
  | 10 => 'a'
  | 11 => 'b'
  | 12 => 'c'
  | 13 => 'd'
  | 14 => 'e'
  | _ => 'f'

/-- Four-digit lower-case hexadecimal rendering of `n < 0x10000`. -/
def toHex4 (n : Nat) : List Char :=
  [hexDigitChar (n / 4096 % 16), hexDigitChar (n / 256 % 16),
   hexDigitChar (n / 16 % 16), hexDigitChar (n % 16)]

/-- Escape of one character inside a JSON string literal, following
Python's `json` encoder with its default `ensure_ascii=True`: printable
ASCII other than quote and backslash passes through, the short escapes
cover the usual control characters, every other character becomes
`\uXXXX` (a surrogate pair for characters beyond the BMP). -/
def escapeChar (c : Char) : List Char :=
  if c = '"' then ['\\', '"']
  else if c = '\\' then ['\\', '\\']
  else if c = '\n' then ['\\', 'n']
  else if c = '\t' then ['\\', 't']
  else if c = '\r' then ['\\', 'r']
  else if c.toNat = 8 then ['\\', 'b']
  else if c.toNat = 12 then ['\\', 'f']
  else if c.toNat < 32 then '\\' :: 'u' :: toHex4 c.toNat
  else if c.toNat < 127 then [c]
  else if c.toNat < 65536 then '\\' :: 'u' :: toHex4 c.toNat
  else
    '\\' :: 'u' :: toHex4 (55296 + (c.toNat - 65536) / 1024) ++
      ('\\' :: 'u' :: toHex4 (56320 + (c.toNat - 65536) % 1024))

/-- Escape of the body of a JSON string literal, character by character. -/
def escapeList : List Char → List Char
  | [] => []
  | c :: cs => escapeChar c ++ escapeList cs

/-- Indentation emitted by `json.dump(..., indent=4)` at nesting depth `k`. -/
def jIndent (k : Nat) : List Char := List.replicate (4 * k) ' '

mutual
/-- Serialization of a JSON value at nesting depth `k`, exactly as written
by `json.dump(value, file, indent=4)`: items of non-empty arrays and
objects each start on their own line indented four more spaces, with
separators `,` and `: `. -/
def dump : JVal → Nat → List Char
  | .null, _ => ['n', 'u', 'l', 'l']
  | .bool true, _ => ['t', 'r', 'u', 'e']
  | .bool false, _ => ['f', 'a', 'l', 's', 'e']
  | .num n, _ => intToChars n
  | .str s, _ => '"' :: (escapeList s.data ++ ['"'])
  | .arr [], _ => ['[', ']']
  | .arr (x :: xs), k =>
      '[' :: '\n' :: (jIndent (k+1) ++ (dump x (k+1) ++ (dumpArrTail xs (k+1) ++
        ('\n' :: (jIndent k ++ [']'])))))
  | .obj [], _ => ['\x7b', '\x7d']
  | .obj (kv :: kvs), k =>
      '\x7b' :: '\n' :: (jIndent (k+1) ++ (dumpMember kv (k+1) ++ (dumpObjTail kvs (k+1) ++
        ('\n' :: (jIndent k ++ ['\x7d'])))))

/-- Serialization of one `"key": value` member of a JSON object. -/
def dumpMember : String × JVal → Nat → List Char
  | (key, v), k => '"' :: (escapeList key.data ++ ('"' :: ':' :: ' ' :: dump v k))

/-- Serialization of the remaining items of a non-empty array: a `,`,
a newline and the indentation before each further item. -/
def dumpArrTail : List JVal → Nat → List Char
  | [], _ => []
  | x :: xs, k => ',' :: '\n' :: (jIndent k ++ (dump x k ++ dumpArrTail xs k))

/-- Serialization of the remaining members of a non-empty object. -/
def dumpObjTail : List (String × JVal) → Nat → List Char
  | [], _ => []
  | kv :: kvs, k => ',' :: '\n' :: (jIndent k ++ (dumpMember kv k ++ dumpObjTail kvs k))
end

/-- String written by `json.dump(value, file, indent=4)`. -/
def dumps (v : JVal) : String := String.mk (dump v 0)

/-- JSON insignificant whitespace, as skipped by Python's `json` decoder. -/
def isWsChar (c : Char) : Bool := c = ' ' || c = '\n' || c = '\t' || c = '\r'

/-- Skip leading JSON whitespace. -/
def skipWs : List Char → List Char
  | [] => []
  | c :: cs => if isWsChar c then skipWs cs else c :: cs

/-- Consume an expected literal sequence of characters. -/
def expectLit : List Char → List Char → Option (List Char)
  | [], cs => some cs
  | _ :: _, [] => none
  | l :: ls, c :: cs => if c = l then expectLit ls cs else none

/-- Value of a hexadecimal digit character, as accepted after `\u`. -/
def hexVal (c : Char) : Option Nat :=
  if 48 ≤ c.toNat ∧ c.toNat ≤ 57 then some (c.toNat - 48)
  else if 97 ≤ c.toNat ∧ c.toNat ≤ 102 then some (c.toNat - 87)
  else if 65 ≤ c.toNat ∧ c.toNat ≤ 70 then some (c.toNat - 55)
  else none

/-- Decoder for one `\uXXXX` escape, after the `\u` has been consumed:
four hexadecimal digits, and, when they form a high surrogate immediately
followed by an escaped low surrogate, the second escape as well, the two
forming one code point, as in Python's `json` decoder. (A lone surrogate,
which Python would keep as a lone surrogate code unit in the `str`, is
not representable as a Lean `Char` and decodes to `Char.ofNat`'s
fallback; it never arises from `dump`.) -/
def escUTok : List Char → Option (Option Char × List Char)
  | h1 :: h2 :: h3 :: h4 :: r3 =>
    match hexVal h1, hexVal h2, hexVal h3, hexVal h4 with
    | some a, some b, some c3, some d =>
      let n := ((a * 16 + b) * 16 + c3) * 16 + d
      if 55296 ≤ n ∧ n ≤ 56319 then
        match r3 with
        | '\\' :: 'u' :: g1 :: g2 :: g3 :: g4 :: r4 =>
          match hexVal g1, hexVal g2, hexVal g3, hexVal g4 with
          | some a2, some b2, some c2, some d2 =>
            let m := ((a2 * 16 + b2) * 16 + c2) * 16 + d2
            if 56320 ≤ m ∧ m ≤ 57343 then
              some (some (Char.ofNat (65536 + (n - 55296) * 1024 + (m - 56320))), r4)
            else some (some (Char.ofNat n), r3)
          | _, _, _, _ => some (some (Char.ofNat n), r3)
        | _ => some (some (Char.ofNat n), r3)
      else some (some (Char.ofNat n), r3)
    | _, _, _, _ => none
  | _ => none

/-- Decoder for one escape sequence, after the backslash: the short
escapes of the JSON grammar, or a `\uXXXX` escape. -/
def escTok : List Char → Option (Option Char × List Char)
  | [] => none
  | e :: r2 =>
    if e = '"' then some (some '"', r2)
    else if e = '\\' then some (some '\\', r2)
    else if e = '/' then some (some '/', r2)
    else if e = 'b' then some (some (Char.ofNat 8), r2)
    else if e = 'f' then some (some (Char.ofNat 12), r2)
    else if e = 'n' then some (some '\n', r2)
    else if e = 'r' then some (some '\r', r2)
    else if e = 't' then some (some '\t', r2)
    else if e = 'u' then escUTok r2
    else none

/-- One decoding step inside a JSON string literal: either the closing
quote (returning `none` for the decoded character), or one plain or
escaped character. Follows Python's `json` decoder in strict mode: raw
control characters are rejected. -/
def strTok : List Char → Option (Option Char × List Char)
  | [] => none
  | c :: r =>
    if c = '"' then some (none, r)
    else if c = '\\' then escTok r
    else if c.toNat < 32 then none
    else some (some c, r)

theorem escUTok_length (r2 : List Char) (x : Option Char) (rest : List Char)
    (h : escUTok r2 = some (x, rest)) : rest.length < r2.length := by
  unfold escUTok at h
  dsimp only at h
  repeat any_goals split at h
  all_goals first
    | (injection h with h1; injection h1 with h2 h3; subst h3;
       simp only [List.length_cons]; omega)
    | injection h

theorem escTok_length (r : List Char) (x : Option Char) (rest : List Char)
    (h : escTok r = some (x, rest)) : rest.length < r.length := by
  unfold escTok at h
  repeat any_goals split at h
  all_goals first
    | (injection h with h1; injection h1 with h2 h3; subst h3;
       simp only [List.length_cons]; omega)
    | injection h
    | (have hlen := escUTok_length _ _ _ h; simp only [List.length_cons]; omega)

theorem strTok_length (cs : List Char) (x : Option Char) (rest : List Char)
    (h : strTok cs = some (x, rest)) : rest.length < cs.length := by
  unfold strTok at h
  repeat any_goals split at h
  all_goals first
    | (injection h with h1; injection h1 with h2 h3; subst h3;
       simp only [List.length_cons]; omega)
    | injection h
    | (have hlen := escTok_length _ _ _ h; simp only [List.length_cons]; omega)

/-- Decoder for the body of a JSON string literal, after the opening
quote: repeat `strTok` until the closing quote, returning the decoded
characters and the input after the closing quote. -/
def parseStrBody (cs : List Char) : Option (List Char × List Char) :=
  match h : strTok cs with
  | some (none, rest) => some ([], rest)
  | some (some c, rest) => (parseStrBody rest).map (fun p => (c :: p.1, p.2))
  | none => none
termination_by cs.length
decreasing_by exact strTok_length cs _ rest h

/-- One step of the decimal fold: shift the accumulator and add the value
of the next digit character. -/
def digitStep (a : Nat) (c : Char) : Nat := 10 * a + (c.toNat - 48)

/-- Decoder for an unsigned decimal integer: takes the maximal run of
digits and folds it to a number. -/
def parseNat (cs : List Char) : Option (Nat × List Char) :=
  let ds := cs.takeWhile (·.isDigit)
  if ds.isEmpty then none
  else some (ds.foldl digitStep 0, cs.dropWhile (·.isDigit))

/-- Decoder for a JSON number, restricted to the integer fragment of the
grammar that `dump` produces. -/
def parseNumber (cs : List Char) : Option (JVal × List Char) :=
  match cs with
  | [] => none
  | c :: r =>
    if c = '-' then (parseNat r).map (fun p => (JVal.num (-(p.1 : Int)), p.2))
    else (parseNat cs).map (fun p => (JVal.num (p.1 : Int), p.2))

mutual
/-- Fuel-indexed decoder for one JSON value, modelling Python's `json.loads`
on the fragment produced by `dump`: skips leading whitespace, then
dispatches on the first character. -/
def parseVal : Nat → List Char → Option (JVal × List Char)
  | 0, _ => none
  | fuel+1, cs =>
    match skipWs cs with
    | [] => none
    | c :: r =>
      if c = '-' ∨ c.isDigit = true then parseNumber (c :: r)
      else if c = '"' then
        match parseStrBody r with
        | some (s, r2) => some (.str (String.mk s), r2)
        | none => none
      else if c = 'n' then
        match expectLit ['u', 'l', 'l'] r with
        | some r2 => some (.null, r2)
        | none => none
      else if c = 't' then
        match expectLit ['r', 'u', 'e'] r with
        | some r2 => some (.bool true, r2)
        | none => none
      else if c = 'f' then
        match expectLit ['a', 'l', 's', 'e'] r with
        | some r2 => some (.bool false, r2)
        | none => none
      else if c = '[' then
        let cs2 := skipWs r
        if cs2.head? = some ']' then some (.arr [], cs2.tail)
        else
          match parseVal fuel cs2 with
          | some (v, r2) => parseArrTail fuel [v] r2
          | none => none
      else if c = '\x7b' then
        let cs2 := skipWs r
        if cs2.head? = some '\x7d' then some (.obj [], cs2.tail)
        else
          match parseMember fuel cs2 with
          | some (kv, r2) => parseObjTail fuel [kv] r2
          | none => none
      else none

/-- Decoder for one `"key": value` member of a JSON object. -/
def parseMember : Nat → List Char → Option ((String × JVal) × List Char)
  | 0, _ => none
  | fuel+1, cs =>
    match skipWs cs with
    | [] => none
    | c :: r =>
      if c = '"' then
        match parseStrBody r with
        | some (key, r2) =>
          let r3 := skipWs r2
          if r3.head? = some ':' then
            match parseVal fuel r3.tail with
            | some (v, r4) => some ((String.mk key, v), r4)
            | none => none
          else none
        | none => none
      else none

/-- Decoder for the rest of a non-empty array after one value has been
read: a `,` continues with another value, a `]` closes the array. -/
def parseArrTail : Nat → List JVal → List Char → Option (JVal × List Char)
  | 0, _, _ => none
  | fuel+1, acc, cs =>
    let cs2 := skipWs cs
    if cs2.head? = some ']' then some (.arr acc, cs2.tail)
    else if cs2.head? = some ',' then
      match parseVal fuel cs2.tail with
      | some (v, r2) => parseArrTail fuel (acc ++ [v]) r2
      | none => none
    else none

/-- Decoder for the rest of a non-empty object after one member has been
read. -/
def parseObjTail : Nat → List (String × JVal) → List Char → Option (JVal × List Char)
  | 0, _, _ => none
  | fuel+1, acc, cs =>
    let cs2 := skipWs cs
    if cs2.head? = some '\x7d' then some (.obj acc, cs2.tail)
    else if cs2.head? = some ',' then
      match parseMember fuel cs2.tail with
      | some (kv, r2) => parseObjTail fuel (acc ++ [kv]) r2
      | none => none
    else none
end

/-- Model of `json.loads`: decode one value and require that only
whitespace remains (Python raises "Extra data" otherwise). The fuel
`s.length + 1` suffices for every string `dump` produces. -/
def loads (s : String) : Option JVal :=
  match parseVal (s.data.length + 1) s.data with
  | some (v, rest) => if skipWs rest = [] then some v else none
  | none => none

/-- The input after a serialized number must not continue with a digit,
since the number decoder takes the maximal run of digits. Every separator
`dump` emits satisfies this. -/
def noDigitHead : List Char → Prop
  | [] => True
  | c :: _ => c.isDigit = false

theorem digitChar_isDigit (m : Nat) (h : m < 10) : (digitChar m).isDigit = true := by
  interval_cases m <;> decide

theorem digitChar_toNat (m : Nat) (h : m < 10) : (digitChar m).toNat = 48 + m := by
  interval_cases m <;> decide

theorem natToChars_ne_nil (n : Nat) : natToChars n ≠ [] := by
  rw [natToChars]
  split <;> simp

theorem natToChars_all_digits (n : Nat) : ∀ c ∈ natToChars n, c.isDigit = true := by
  induction n using Nat.strong_induction_on with
  | _ n ih =>
    rw [natToChars]
    split
    · next h =>
      intro c hc
      simp only [List.mem_singleton] at hc
      exact hc ▸ digitChar_isDigit n h
    · next h =>
      intro c hc
      rcases List.mem_append.mp hc with h1 | h2
      · exact ih (n / 10) (Nat.div_lt_self (by omega) (by decide)) c h1
      · simp only [List.mem_singleton] at h2
        exact h2 ▸ digitChar_isDigit (n % 10) (Nat.mod_lt n (by decide))

/-- Power of ten matching the number of digits `natToChars` emits. -/
def tenPow (n : Nat) : Nat :=
  if n < 10 then 10 else 10 * tenPow (n / 10)
termination_by n
decreasing_by exact Nat.div_lt_self (by omega) (by decide)

theorem foldl_digitStep_natToChars (n : Nat) :
    ∀ a, (natToChars n).foldl digitStep a = a * tenPow n + n := by
  induction n using Nat.strong_induction_on with
  | _ n ih =>
    intro a
    rw [natToChars, tenPow]
    split
    · next h =>
      simp only [List.foldl_cons, List.foldl_nil, digitStep, digitChar_toNat n h]
      omega
    · next h =>
      rw [List.foldl_append, ih (n / 10) (Nat.div_lt_self (by omega) (by decide))]
      simp only [List.foldl_cons, List.foldl_nil, digitStep,
        digitChar_toNat (n % 10) (Nat.mod_lt n (by decide))]
      have hmod : 10 * (n / 10) + n % 10 = n := Nat.div_add_mod n 10
      have : 10 * (a * tenPow (n / 10) + n / 10) + (48 + n % 10 - 48) =
          a * (10 * tenPow (n / 10)) + (10 * (n / 10) + n % 10) := by ring_nf; omega
      rw [this, hmod]

theorem takeWhile_all_append {p : Char → Bool} (l1 l2 : List Char)
    (h : ∀ c ∈ l1, p c = true) : (l1 ++ l2).takeWhile p = l1 ++ l2.takeWhile p := by
  induction l1 with
  | nil => simp
  | cons c cs ih =>
    simp [List.takeWhile_cons, h c (by simp), ih (fun x hx => h x (by simp [hx]))]

theorem dropWhile_all_append {p : Char → Bool} (l1 l2 : List Char)
    (h : ∀ c ∈ l1, p c = true) : (l1 ++ l2).dropWhile p = l2.dropWhile p := by
  induction l1 with
  | nil => simp
  | cons c cs ih =>
    simp only [List.cons_append, List.dropWhile_cons, h c (by simp)]
    exact ih (fun x hx => h x (by simp [hx]))

theorem takeWhile_noDigitHead (rest : List Char) (h : noDigitHead rest) :
    rest.takeWhile (·.isDigit) = [] := by
  cases rest with
  | nil => rfl
  | cons c cs => simp_all [noDigitHead, List.takeWhile_cons]

theorem dropWhile_noDigitHead (rest : List Char) (h : noDigitHead rest) :
    rest.dropWhile (·.isDigit) = rest := by
  cases rest with
  | nil => rfl
  | cons c cs => simp_all [noDigitHead, List.dropWhile_cons]

theorem parseNat_natToChars (n : Nat) (rest : List Char) (h : noDigitHead rest) :
    parseNat (natToChars n ++ rest) = some (n, rest) := by
  unfold parseNat
  rw [takeWhile_all_append _ _ (natToChars_all_digits n),
      dropWhile_all_append _ _ (natToChars_all_digits n),
      takeWhile_noDigitHead rest h, dropWhile_noDigitHead rest h,
      List.append_nil]
  simp only [List.isEmpty_iff, natToChars_ne_nil n, if_false,
    foldl_digitStep_natToChars, Nat.zero_mul, Nat.zero_add]

theorem isDigit_ne_minus {c : Char} (h : c.isDigit = true) : ¬ c = '-' := by
  intro hc
  rw [hc] at h
  exact absurd h (by decide)

theorem parseNumber_intToChars (n : Int) (rest : List Char) (h : noDigitHead rest) :
    parseNumber (intToChars n ++ rest) = some (.num n, rest) := by
  unfold intToChars
  split
  · next hn =>
    have h1 : -((n.natAbs : Nat) : Int) = n := by omega
    simp [parseNumber, parseNat_natToChars _ rest h, h1, abs_of_neg hn]
  · next hn =>
    obtain ⟨c, t, hct⟩ := List.exists_cons_of_ne_nil (natToChars_ne_nil n.toNat)
    have hcd : c.isDigit = true := natToChars_all_digits n.toNat c (by rw [hct]; simp)
    have h1 : ((n.toNat : Nat) : Int) = n := by omega
    rw [hct, List.cons_append]
    simp only [parseNumber, if_neg (isDigit_ne_minus hcd)]
    rw [← List.cons_append, ← hct, parseNat_natToChars _ rest h]
    simp [h1]

theorem hexVal_hexDigitChar : ∀ m, m < 16 → hexVal (hexDigitChar m) = some m := by decide

theorem char_toNat_lt (c : Char) : c.toNat < 1114112 := by
  have := c.valid
  rcases this with h | ⟨h1, h2⟩ <;> simp [Char.toNat] <;> omega

theorem char_not_surrogate (c : Char) : c.toNat < 55296 ∨ 57343 < c.toNat := by
  have := c.valid
  rcases this with h | ⟨h1, h2⟩
  · left; simpa [Char.toNat] using h
  · right; simpa [Char.toNat] using h1

theorem parseStrBody_end (cs rest : List Char) (h : strTok cs = some (none, rest)) :
    parseStrBody cs = some ([], rest) := by
  unfold parseStrBody
  split
  · rename_i rest1 heq
    rw [h] at heq
    injection heq with h1
    injection h1 with h2 h3
    rw [h3]
  · rename_i c1 rest1 heq
    rw [h] at heq
    injection heq with h1
    injection h1 with h2 h3
    exact Option.noConfusion h2
  · rename_i heq
    rw [h] at heq
    exact Option.noConfusion heq

theorem parseStrBody_step (cs rest : List Char) (c : Char)
    (h : strTok cs = some (some c, rest)) :
    parseStrBody cs = (parseStrBody rest).map (fun p => (c :: p.1, p.2)) := by
  conv_lhs => unfold parseStrBody
  split
  · rename_i rest1 heq
    rw [h] at heq
    injection heq with h1
    injection h1 with h2 h3
    exact Option.noConfusion h2
  · rename_i c1 rest1 heq
    rw [h] at heq
    injection heq with h1
    injection h1 with h2 h3
    injection h2 with h4
    rw [h3, h4]
  · rename_i heq
    rw [h] at heq
    exact Option.noConfusion heq

theorem strTok_esc (r : List Char) : strTok ('\\' :: r) = escTok r := rfl

theorem escTok_u (r2 : List Char) : escTok ('u' :: r2) = escUTok r2 := rfl

theorem strTok_plain (c : Char) (r : List Char) (h1 : ¬ c = '"') (h2 : ¬ c = '\\')
    (h3 : ¬ c.toNat < 32) : strTok (c :: r) = some (some c, r) := by
  simp only [strTok]
  rw [if_neg h1, if_neg h2, if_neg h3]

theorem escUTok_hex (n : Nat) (hlt : n < 65536) (hns : n < 55296 ∨ 56319 < n)
    (r3 : List Char) : escUTok (toHex4 n ++ r3) = some (some (Char.ofNat n), r3) := by
  have e1 := hexVal_hexDigitChar (n / 4096 % 16) (Nat.mod_lt _ (by decide))
  have e2 := hexVal_hexDigitChar (n / 256 % 16) (Nat.mod_lt _ (by decide))
  have e3 := hexVal_hexDigitChar (n / 16 % 16) (Nat.mod_lt _ (by decide))
  have e4 := hexVal_hexDigitChar (n % 16) (Nat.mod_lt _ (by decide))
  have hrec : ((n / 4096 % 16 * 16 + n / 256 % 16) * 16 + n / 16 % 16) * 16 + n % 16 = n := by
    omega
  simp only [toHex4, List.cons_append, List.nil_append, escUTok, e1, e2, e3, e4]
  rw [hrec, if_neg (by omega : ¬(55296 ≤ n ∧ n ≤ 56319))]

theorem escUTok_surr (hi lo : Nat) (hhi : 55296 ≤ hi ∧ hi ≤ 56319)
    (hlo : 56320 ≤ lo ∧ lo ≤ 57343) (r : List Char) :
    escUTok (toHex4 hi ++ ('\\' :: 'u' :: (toHex4 lo ++ r))) =
      some (some (Char.ofNat (65536 + (hi - 55296) * 1024 + (lo - 56320))), r) := by
  have e1 := hexVal_hexDigitChar (hi / 4096 % 16) (Nat.mod_lt _ (by decide))
  have e2 := hexVal_hexDigitChar (hi / 256 % 16) (Nat.mod_lt _ (by decide))
  have e3 := hexVal_hexDigitChar (hi / 16 % 16) (Nat.mod_lt _ (by decide))
  have e4 := hexVal_hexDigitChar (hi % 16) (Nat.mod_lt _ (by decide))
  have f1 := hexVal_hexDigitChar (lo / 4096 % 16) (Nat.mod_lt _ (by decide))
  have f2 := hexVal_hexDigitChar (lo / 256 % 16) (Nat.mod_lt _ (by decide))
  have f3 := hexVal_hexDigitChar (lo / 16 % 16) (Nat.mod_lt _ (by decide))
  have f4 := hexVal_hexDigitChar (lo % 16) (Nat.mod_lt _ (by decide))
  have hrec1 : ((hi / 4096 % 16 * 16 + hi / 256 % 16) * 16 + hi / 16 % 16) * 16 + hi % 16 =
      hi := by omega
  have hrec2 : ((lo / 4096 % 16 * 16 + lo / 256 % 16) * 16 + lo / 16 % 16) * 16 + lo % 16 =
      lo := by omega
  simp only [toHex4, List.cons_append, List.nil_append, escUTok, e1, e2, e3, e4, f1, f2,
    f3, f4, hrec1, hrec2]
  rw [if_pos hhi, if_pos hlo]

theorem escUTok_hex_pair (n : Nat) (hge : 65536 ≤ n) (hlt : n < 1114112) (r : List Char) :
    escUTok (toHex4 (55296 + (n - 65536) / 1024) ++
      ('\\' :: 'u' :: (toHex4 (56320 + (n - 65536) % 1024) ++ r))) =
      some (some (Char.ofNat n), r) := by
  have h0 := escUTok_surr (55296 + (n - 65536) / 1024) (56320 + (n - 65536) % 1024)
    ⟨by omega, by omega⟩ ⟨by omega, by omega⟩ r
  have hc : 65536 + (55296 + (n - 65536) / 1024 - 55296) * 1024 +
      (56320 + (n - 65536) % 1024 - 56320) = n := by omega
  rw [h0, hc]

set_option maxHeartbeats 1600000 in
theorem strTok_escapeChar (c : Char) (l : List Char) :
    strTok (escapeChar c ++ l) = some (some c, l) := by
  unfold escapeChar
  split_ifs with hq hb hn ht hr h8 h12 hc32 hc127 hbmp
  · rw [hq]; rfl
  · rw [hb]; rfl
  · rw [hn]; rfl
  · rw [ht]; rfl
  · rw [hr]; rfl
  · have h9 : Char.ofNat 8 = c := by rw [← h8, Char.ofNat_toNat]
    rw [← h9]; rfl
  · have h13 : Char.ofNat 12 = c := by rw [← h12, Char.ofNat_toNat]
    rw [← h13]; rfl
  · rw [List.cons_append, List.cons_append, strTok_esc, escTok_u,
      escUTok_hex c.toNat (by omega) (by omega) l, Char.ofNat_toNat]
  · simp only [List.cons_append, List.nil_append]
    exact strTok_plain c l hq hb hc32
  · rcases char_not_surrogate c with hside | hside
    · rw [List.cons_append, List.cons_append, strTok_esc, escTok_u,
        escUTok_hex c.toNat (by omega) (by omega) l, Char.ofNat_toNat]
    · rw [List.cons_append, List.cons_append, strTok_esc, escTok_u,
        escUTok_hex c.toNat (by omega) (by omega) l, Char.ofNat_toNat]
  · have hlt := char_toNat_lt c
    have hshape : ('\\' :: 'u' :: toHex4 (55296 + (c.toNat - 65536) / 1024) ++
        ('\\' :: 'u' :: toHex4 (56320 + (c.toNat - 65536) % 1024))) ++ l =
        '\\' :: 'u' :: (toHex4 (55296 + (c.toNat - 65536) / 1024) ++
        ('\\' :: 'u' :: (toHex4 (56320 + (c.toNat - 65536) % 1024) ++ l))) := by
      simp
    rw [hshape, strTok_esc, escTok_u,
      escUTok_hex_pair c.toNat (by omega) hlt l, Char.ofNat_toNat]

theorem parseStrBody_escapeChar (c : Char) (l : List Char) :
    parseStrBody (escapeChar c ++ l) =
      (parseStrBody l).map (fun p => (c :: p.1, p.2)) :=
  parseStrBody_step _ _ _ (strTok_escapeChar c l)

theorem parseStrBody_escapeList (s : List Char) (rest : List Char) :
    parseStrBody (escapeList s ++ '"' :: rest) = some (s, rest) := by
  induction s with
  | nil => exact parseStrBody_end _ rest rfl
  | cons c s ih =>
    rw [escapeList, List.append_assoc, parseStrBody_escapeChar, ih]
    rfl

theorem isDigit_toNat {c : Char} (h : c.isDigit = true) : 48 ≤ c.toNat ∧ c.toNat ≤ 57 := by
  simp [Char.isDigit] at h
  exact ⟨h.1, h.2⟩

theorem isDigit_facts {c : Char} (h : c.isDigit = true) :
    isWsChar c = false ∧ ¬ c = ']' ∧ ¬ c = '\x7d' := by
  have hb := isDigit_toNat h
  refine ⟨?_, ?_, ?_⟩
  · simp only [isWsChar, Bool.or_eq_false_iff, decide_eq_false_iff_not]
    refine ⟨⟨⟨?_, ?_⟩, ?_⟩, ?_⟩ <;> (intro hc; subst hc; revert hb; decide)
  · intro hc; subst hc; revert hb; decide
  · intro hc; subst hc; revert hb; decide

theorem skipWs_replicate_space (m : Nat) (l : List Char) :
    skipWs (List.replicate m ' ' ++ l) = skipWs l := by
  induction m with
  | zero => simp
  | succ m ih => simpa [skipWs] using ih

theorem skipWs_jIndent (k : Nat) (l : List Char) : skipWs (jIndent k ++ l) = skipWs l :=
  skipWs_replicate_space (4 * k) l

theorem skipWs_lf (l : List Char) : skipWs ('\n' :: l) = skipWs l := by
  simp [skipWs, isWsChar]

theorem skipWs_not_ws {c : Char} (h : isWsChar c = false) (l : List Char) :
    skipWs (c :: l) = c :: l := by
  simp [skipWs, h]

/-- The first character of a serialized value: never whitespace and never
a closing bracket, so the decoder's dispatch is unambiguous. -/
theorem dump_head (v : JVal) (k : Nat) :
    ∃ c t, dump v k = c :: t ∧ isWsChar c = false ∧ ¬ c = ']' ∧ ¬ c = '\x7d' := by
  cases v with
  | null => exact ⟨'n', _, rfl, by decide, by decide, by decide⟩
  | bool b =>
    cases b
    · exact ⟨'f', _, rfl, by decide, by decide, by decide⟩
    · exact ⟨'t', _, rfl, by decide, by decide, by decide⟩
  | num n =>
    show ∃ c t, intToChars n = c :: t ∧ _
    unfold intToChars
    split
    · exact ⟨'-', _, rfl, by decide, by decide, by decide⟩
    · obtain ⟨c, t, hct⟩ := List.exists_cons_of_ne_nil (natToChars_ne_nil n.toNat)
      have hcd : c.isDigit = true := natToChars_all_digits n.toNat c (by rw [hct]; simp)
      obtain ⟨hw, hr1, hr2⟩ := isDigit_facts hcd
      exact ⟨c, t, hct, hw, hr1, hr2⟩
  | str s => exact ⟨'"', _, rfl, by decide, by decide, by decide⟩
  | arr xs =>
    cases xs
    · exact ⟨'[', _, rfl, by decide, by decide, by decide⟩
    · exact ⟨'[', _, rfl, by decide, by decide, by decide⟩
  | obj kvs =>
    cases kvs
    · exact ⟨'\x7b', _, rfl, by decide, by decide, by decide⟩
    · exact ⟨'\x7b', _, rfl, by decide, by decide, by decide⟩

mutual
/-- Fuel needed by `parseVal` to decode `dump v k`: one unit per decoder
call. -/
def fuelFor : JVal → Nat
  | .arr xs => 1 + fuelForL xs
  | .obj kvs => 1 + fuelForO kvs
  | _ => 1

/-- Fuel needed by `parseArrTail` for the remaining items of an array. -/
def fuelForL : List JVal → Nat
  | [] => 1
  | x :: xs => 1 + fuelFor x + fuelForL xs

/-- Fuel needed by `parseObjTail` for the remaining members of an object. -/
def fuelForO : List (String × JVal) → Nat
  | [] => 1
  | (_, v) :: kvs => 1 + fuelFor v + fuelForO kvs
end

theorem fuelForL_pos (xs : List JVal) : 1 ≤ fuelForL xs := by
  cases xs <;> simp [fuelForL] <;> omega

theorem fuelForO_pos (kvs : List (String × JVal)) : 1 ≤ fuelForO kvs := by
  cases kvs with
  | nil => simp [fuelForO]
  | cons kv kvs => obtain ⟨key, v⟩ := kv; simp [fuelForO]; omega

theorem parseVal_congr (fuel : Nat) (a b : List Char) (h : skipWs a = skipWs b) :
    parseVal fuel a = parseVal fuel b := by
  cases fuel with
  | zero => rfl
  | succ fuel => unfold parseVal; rw [h]

theorem parseMember_congr (fuel : Nat) (a b : List Char) (h : skipWs a = skipWs b) :
    parseMember fuel a = parseMember fuel b := by
  cases fuel with
  | zero => rfl
  | succ fuel => unfold parseMember; rw [h]

theorem noDigit_arrTail (xs : List JVal) (k : Nat) (l : List Char) :
    noDigitHead (dumpArrTail xs k ++ '\n' :: l) := by
  cases xs <;> simp [dumpArrTail, noDigitHead]

theorem noDigit_objTail (kvs : List (String × JVal)) (k : Nat) (l : List Char) :
    noDigitHead (dumpObjTail kvs k ++ '\n' :: l) := by
  cases kvs with
  | nil => simp [dumpObjTail, noDigitHead]
  | cons kv kvs => simp [dumpObjTail, noDigitHead]

theorem fuelFor_pos (v : JVal) : 1 ≤ fuelFor v := by
  cases v <;> simp [fuelFor] <;> omega

theorem skipWs_space (l : List Char) : skipWs (' ' :: l) = skipWs l := by
  simp [skipWs, isWsChar]

/-- Round-trip of the decoder against the serializer, for all four mutual
decoders at once: given enough fuel, decoding a serialized value consumes
exactly the serialization and returns the value, for any nesting depth
and any continuation of the input. -/
theorem parse_dump (fuel : Nat) :
    (∀ v k rest, fuelFor v ≤ fuel → noDigitHead rest →
        parseVal fuel (dump v k ++ rest) = some (v, rest)) ∧
    (∀ key v k rest, 1 + fuelFor v ≤ fuel → noDigitHead rest →
        parseMember fuel (dumpMember (key, v) k ++ rest) = some ((key, v), rest)) ∧
    (∀ xs acc k rest, fuelForL xs ≤ fuel →
        parseArrTail fuel acc (dumpArrTail xs (k+1) ++ '\n' :: (jIndent k ++ ']' :: rest)) =
          some (.arr (acc ++ xs), rest)) ∧
    (∀ kvs acc k rest, fuelForO kvs ≤ fuel →
        parseObjTail fuel acc
          (dumpObjTail kvs (k+1) ++ '\n' :: (jIndent k ++ '\x7d' :: rest)) =
          some (.obj (acc ++ kvs), rest)) := by
  induction fuel with
  | zero =>
    refine ⟨?_, ?_, ?_, ?_⟩
    · intro v k rest hf _
      exact absurd hf (by have := fuelFor_pos v; omega)
    · intro key v k rest hf _
      exact absurd hf (by have := fuelFor_pos v; omega)
    · intro xs acc k rest hf
      exact absurd hf (by have := fuelForL_pos xs; omega)
    · intro kvs acc k rest hf
      exact absurd hf (by have := fuelForO_pos kvs; omega)
  | succ fuel ih =>
    obtain ⟨ihV, ihM, ihA, ihO⟩ := ih
    refine ⟨?_, ?_, ?_, ?_⟩
    · intro v k rest hf hr
      cases v with
      | null =>
        simp [dump, parseVal, skipWs, isWsChar, expectLit, Char.reduceEq]
      | bool b =>
        cases b <;>
          simp [dump, parseVal, skipWs, isWsChar, expectLit, Char.reduceEq,
            show ('t').isDigit = false from by decide,
            show ('f').isDigit = false from by decide]
      | num n =>
        obtain ⟨c, t, hct, hd⟩ :
            ∃ c t, intToChars n = c :: t ∧ (c = '-' ∨ c.isDigit = true) := by
          unfold intToChars
          split
          · exact ⟨'-', _, rfl, Or.inl rfl⟩
          · obtain ⟨c, t, hct⟩ := List.exists_cons_of_ne_nil (natToChars_ne_nil n.toNat)
            exact ⟨c, t, hct,
              Or.inr (natToChars_all_digits n.toNat c (by rw [hct]; simp))⟩
        have hw : isWsChar c = false := by
          rcases hd with rfl | hd
          · decide
          · exact (isDigit_facts hd).1
        simp only [dump]
        rw [hct, List.cons_append]
        simp only [parseVal]
        rw [skipWs_not_ws hw]
        dsimp only
        rw [if_pos hd, ← List.cons_append, ← hct]
        exact parseNumber_intToChars n rest hr
      | str s =>
        simp [dump, parseVal, skipWs, isWsChar, Char.reduceEq, parseStrBody_escapeList,
          show ('"').isDigit = false from by decide]
      | arr xs =>
        cases xs with
        | nil =>
          simp [dump, parseVal, skipWs, isWsChar, Char.reduceEq,
            show ('[').isDigit = false from by decide]
        | cons x xs =>
          obtain ⟨c, t, hct, hw, hne1, hne2⟩ := dump_head x (k+1)
          have hfx : fuelFor x ≤ fuel := by
            have h1 := fuelForL_pos xs
            simp [fuelFor, fuelForL] at hf
            omega
          have hfl : fuelForL xs ≤ fuel := by
            have h1 := fuelFor_pos x
            simp [fuelFor, fuelForL] at hf
            omega
          have hnd : noDigitHead
              (dumpArrTail xs (k+1) ++ '\n' :: (jIndent k ++ ']' :: rest)) :=
            noDigit_arrTail xs (k+1) _
          have ih1 : parseVal fuel
              (c :: (t ++ (dumpArrTail xs (k+1) ++ '\n' :: (jIndent k ++ ']' :: rest)))) =
              some (x, dumpArrTail xs (k+1) ++ '\n' :: (jIndent k ++ ']' :: rest)) := by
            rw [← List.cons_append, ← hct]
            exact ihV x (k+1) _ hfx hnd
          have ih2 : parseArrTail fuel [x]
              (dumpArrTail xs (k+1) ++ '\n' :: (jIndent k ++ ']' :: rest)) =
              some (.arr ([x] ++ xs), rest) := ihA xs [x] k rest hfl
          simp only [dump, List.cons_append, List.append_assoc, List.nil_append]
          simp only [parseVal]
          rw [skipWs_not_ws (by decide)]
          dsimp only
          simp only [Char.reduceEq, show ('[').isDigit = false from by decide,
            decide_eq_true_eq, Bool.false_eq_true, false_or, if_false, if_true,
            ite_false, ite_true]
          rw [skipWs_lf, skipWs_jIndent, hct, List.cons_append, skipWs_not_ws hw]
          simp only [List.head?_cons, Option.some.injEq, hne1, if_false, ite_false]
          rw [ih1]
          dsimp only
          rw [ih2]
          simp
      | obj kvs =>
        cases kvs with
        | nil =>
          simp [dump, parseVal, skipWs, isWsChar, Char.reduceEq,
            show ('\x7b').isDigit = false from by decide]
        | cons kv kvs =>
          obtain ⟨key, v⟩ := kv
          have hfv : 1 + fuelFor v ≤ fuel := by
            have h1 := fuelForO_pos kvs
            simp [fuelFor, fuelForO] at hf
            omega
          have hfo : fuelForO kvs ≤ fuel := by
            have h1 := fuelFor_pos v
            simp [fuelFor, fuelForO] at hf
            omega
          have hnd : noDigitHead
              (dumpObjTail kvs (k+1) ++ '\n' :: (jIndent k ++ '\x7d' :: rest)) :=
            noDigit_objTail kvs (k+1) _
          have ih1 : parseMember fuel
              (dumpMember (key, v) (k+1) ++
                (dumpObjTail kvs (k+1) ++ '\n' :: (jIndent k ++ '\x7d' :: rest))) =
              some ((key, v),
                dumpObjTail kvs (k+1) ++ '\n' :: (jIndent k ++ '\x7d' :: rest)) :=
            ihM key v (k+1) _ hfv hnd
          have ih2 := ihO kvs [(key, v)] k rest hfo
          have hdm : dumpMember (key, v) (k+1) =
              '"' :: (escapeList key.data ++ ('"' :: ':' :: ' ' :: dump v (k+1))) := rfl
          simp only [dump, List.cons_append, List.append_assoc, List.nil_append]
          simp only [parseVal]
          rw [skipWs_not_ws (by decide)]
          dsimp only
          simp only [Char.reduceEq, show ('\x7b').isDigit = false from by decide,
            decide_eq_true_eq, Bool.false_eq_true, false_or, if_false, if_true,
            ite_false, ite_true]
          rw [skipWs_lf, skipWs_jIndent, hdm, List.cons_append, skipWs_not_ws (by decide)]
          simp only [List.head?_cons, Option.some.injEq, Char.reduceEq, if_false,
            ite_false]
          rw [← List.cons_append, ← hdm, ih1]
          dsimp only
          rw [ih2]
          simp
    · intro key v k rest hfv1 hr
      have hfv : fuelFor v ≤ fuel := by omega
      have ih1 : parseVal fuel (' ' :: (dump v k ++ rest)) = some (v, rest) := by
        rw [parseVal_congr fuel _ (dump v k ++ rest) (skipWs_space _)]
        exact ihV v k rest hfv hr
      simp only [dumpMember, List.cons_append, List.append_assoc, List.nil_append]
      simp only [parseMember]
      rw [skipWs_not_ws (by decide)]
      dsimp only
      simp only [Char.reduceEq, if_true, ite_true, parseStrBody_escapeList]
      rw [skipWs_not_ws (by decide)]
      simp only [List.head?_cons, Option.some.injEq, Char.reduceEq, if_true, ite_true,
        List.tail_cons]
      rw [ih1]
    · intro xs acc k rest hfl
      cases xs with
      | nil =>
        simp only [dumpArrTail, List.nil_append]
        simp only [parseArrTail]
        rw [skipWs_lf, skipWs_jIndent, skipWs_not_ws (by decide)]
        simp
      | cons x xs =>
        have hfx : fuelFor x ≤ fuel := by
          have h1 := fuelForL_pos xs
          simp [fuelForL] at hfl
          omega
        have hfl2 : fuelForL xs ≤ fuel := by
          have h1 := fuelFor_pos x
          simp [fuelForL] at hfl
          omega
        have hnd : noDigitHead
            (dumpArrTail xs (k+1) ++ '\n' :: (jIndent k ++ ']' :: rest)) :=
          noDigit_arrTail xs (k+1) _
        have ih1 : parseVal fuel
            ('\n' :: (jIndent (k+1) ++ (dump x (k+1) ++
              (dumpArrTail xs (k+1) ++ '\n' :: (jIndent k ++ ']' :: rest))))) =
            some (x, dumpArrTail xs (k+1) ++ '\n' :: (jIndent k ++ ']' :: rest)) := by
          rw [parseVal_congr fuel _ (dump x (k+1) ++
            (dumpArrTail xs (k+1) ++ '\n' :: (jIndent k ++ ']' :: rest)))
            (by rw [skipWs_lf, skipWs_jIndent])]
          exact ihV x (k+1) _ hfx hnd
        have ih2 := ihA xs (acc ++ [x]) k rest hfl2
        simp only [dumpArrTail, List.cons_append, List.append_assoc, List.nil_append]
        simp only [parseArrTail]
        rw [skipWs_not_ws (by decide)]
        try dsimp only
        simp only [List.head?_cons, Option.some.injEq, Char.reduceEq, if_false,
          ite_false, if_true, ite_true, List.tail_cons]
        rw [ih1]
        dsimp only
        rw [ih2]
        simp
    · intro kvs acc k rest hfo
      cases kvs with
      | nil =>
        simp only [dumpObjTail, List.nil_append]
        simp only [parseObjTail]
        rw [skipWs_lf, skipWs_jIndent, skipWs_not_ws (by decide)]
        simp
      | cons kv kvs =>
        obtain ⟨key, v⟩ := kv
        have hfv : 1 + fuelFor v ≤ fuel := by
          have h1 := fuelForO_pos kvs
          simp [fuelForO] at hfo
          omega
        have hfo2 : fuelForO kvs ≤ fuel := by
          have h1 := fuelFor_pos v
          simp [fuelForO] at hfo
          omega
        have hnd : noDigitHead
            (dumpObjTail kvs (k+1) ++ '\n' :: (jIndent k ++ '\x7d' :: rest)) :=
          noDigit_objTail kvs (k+1) _
        have ih1 : parseMember fuel
            ('\n' :: (jIndent (k+1) ++ (dumpMember (key, v) (k+1) ++
              (dumpObjTail kvs (k+1) ++ '\n' :: (jIndent k ++ '\x7d' :: rest))))) =
            some ((key, v),
              dumpObjTail kvs (k+1) ++ '\n' :: (jIndent k ++ '\x7d' :: rest)) := by
          rw [parseMember_congr fuel _ (dumpMember (key, v) (k+1) ++
            (dumpObjTail kvs (k+1) ++ '\n' :: (jIndent k ++ '\x7d' :: rest)))
            (by rw [skipWs_lf, skipWs_jIndent])]
          exact ihM key v (k+1) _ hfv hnd
        have ih2 := ihO kvs (acc ++ [(key, v)]) k rest hfo2
        simp only [dumpObjTail, List.cons_append, List.append_assoc, List.nil_append]
        simp only [parseObjTail]
        rw [skipWs_not_ws (by decide)]
        try dsimp only
        simp only [List.head?_cons, Option.some.injEq, Char.reduceEq, if_false,
          ite_false, if_true, ite_true, List.tail_cons]
        rw [ih1]
        dsimp only
        rw [ih2]
        simp

theorem intToChars_ne_nil (n : Int) : intToChars n ≠ [] := by
  unfold intToChars
  split
  · simp
  · exact natToChars_ne_nil n.toNat

/-- The serialization of a value is at least as long as the fuel its
decoding needs, so `loads` always supplies enough fuel. -/
theorem dump_length (N : Nat) :
    (∀ v, fuelFor v ≤ N → ∀ k, fuelFor v ≤ (dump v k).length) ∧
    (∀ xs, fuelForL xs ≤ N → ∀ k, fuelForL xs ≤ (dumpArrTail xs k).length + 1) ∧
    (∀ kvs, fuelForO kvs ≤ N → ∀ k, fuelForO kvs ≤ (dumpObjTail kvs k).length + 1) := by
  induction N with
  | zero =>
    refine ⟨?_, ?_, ?_⟩
    · intro v hf
      exact absurd hf (by have := fuelFor_pos v; omega)
    · intro xs hf
      exact absurd hf (by have := fuelForL_pos xs; omega)
    · intro kvs hf
      exact absurd hf (by have := fuelForO_pos kvs; omega)
  | succ N ih =>
    obtain ⟨ihV, ihA, ihO⟩ := ih
    refine ⟨?_, ?_, ?_⟩
    · intro v hf k
      cases v with
      | null => simp [dump, fuelFor]
      | bool b => cases b <;> simp [dump, fuelFor]
      | num n =>
        have h1 : 1 ≤ (intToChars n).length := by
          rcases List.exists_cons_of_ne_nil (intToChars_ne_nil n) with ⟨c, t, hct⟩
          rw [hct]
          simp
        simpa [dump, fuelFor] using h1
      | str s => simp [dump, fuelFor]
      | arr xs =>
        cases xs with
        | nil => simp [dump, fuelFor, fuelForL]
        | cons x xs =>
          have hfx : fuelFor x ≤ N := by
            have h1 := fuelForL_pos xs
            simp [fuelFor, fuelForL] at hf
            omega
          have hfl : fuelForL xs ≤ N := by
            have h1 := fuelFor_pos x
            simp [fuelFor, fuelForL] at hf
            omega
          have h1 := ihV x hfx (k+1)
          have h2 := ihA xs hfl (k+1)
          simp only [dump, fuelFor, fuelForL, List.length_cons, List.length_append]
          omega
      | obj kvs =>
        cases kvs with
        | nil => simp [dump, fuelFor, fuelForO]
        | cons kv kvs =>
          obtain ⟨key, v⟩ := kv
          have hfv : fuelFor v ≤ N := by
            have h1 := fuelForO_pos kvs
            simp [fuelFor, fuelForO] at hf
            omega
          have hfo : fuelForO kvs ≤ N := by
            have h1 := fuelFor_pos v
            simp [fuelFor, fuelForO] at hf
            omega
          have h1 := ihV v hfv (k+1)
          have h2 := ihO kvs hfo (k+1)
          simp only [dump, dumpMember, fuelFor, fuelForO, List.length_cons,
            List.length_append]
          omega
    · intro xs hf k
      cases xs with
      | nil => simp [dumpArrTail, fuelForL]
      | cons x xs =>
        have hfx : fuelFor x ≤ N := by
          have h1 := fuelForL_pos xs
          simp [fuelForL] at hf
          omega
        have hfl : fuelForL xs ≤ N := by
          have h1 := fuelFor_pos x
          simp [fuelForL] at hf
          omega
        have h1 := ihV x hfx k
        have h2 := ihA xs hfl k
        simp only [dumpArrTail, fuelForL, List.length_cons, List.length_append]
        omega
    · intro kvs hf k
      cases kvs with
      | nil => simp [dumpObjTail, fuelForO]
      | cons kv kvs =>
        obtain ⟨key, v⟩ := kv
        have hfv : fuelFor v ≤ N := by
          have h1 := fuelForO_pos kvs
          simp [fuelForO] at hf
          omega
        have hfo : fuelForO kvs ≤ N := by
          have h1 := fuelFor_pos v
          simp [fuelForO] at hf
          omega
        have h1 := ihV v hfv k
        have h2 := ihO kvs hfo k
        simp only [dumpObjTail, dumpMember, fuelForO, List.length_cons, List.length_append]
        omega

/-- Decoding the serialization of any JSON value returns exactly that
value: `json.loads` inverts `json.dump(..., indent=4)`. -/
theorem loads_dumps (v : JVal) : loads (dumps v) = some v := by
  have hfuel : fuelFor v ≤ (dump v 0).length + 1 := by
    have h := (dump_length (fuelFor v)).1 v le_rfl 0
    omega
  have h := (parse_dump ((dump v 0).length + 1)).1 v 0 [] hfuel trivial
  rw [List.append_nil] at h
  unfold loads dumps
  simp only [String.data]
  rw [h]
  rfl

/-- Value of one query parameter, as placed in the `params` dict of the
request. -/
inductive ParamValue where
  | str (s : String)
  | nat (n : Nat)
  | bool (b : Bool)

/-- One HTTP GET request: the URL and the query parameters passed to
`session.get`. -/
structure Request where
  url : String
  params : List (String × ParamValue)

/-- An HTTP response as seen by the client: its status code and body
text. -/
structure HttpResponse where
  status_code : Nat
  text : String

/-- `response.json()`: parse the body text as JSON. -/
def HttpResponse.json (r : HttpResponse) : Option JVal := loads r.text

/-- Base URL of the API (`CoinGeckoAPI.BASE_URL`). -/
def CoinGeckoAPI.BASE_URL : String := "https://api.coingecko.com/api/v3"

/-- The single request `get_market_data` builds: the `/coins/markets`
endpoint with its five query parameters. -/
def marketDataRequest (vs_currency : String) (per_page : Nat) : Request :=
  { url := CoinGeckoAPI.BASE_URL ++ "/coins/markets",
    params := [("vs_currency", .str vs_currency),
               ("order", .str "market_cap_desc"),
               ("per_page", .nat per_page),
               ("page", .nat 1),
               ("sparkline", .bool false)] }

/-- `CoinGeckoAPI.get_market_data(vs_currency, per_page)` (defaults in the
source: `vs_currency="usd"`, `per_page=10`). The HTTP session is an
oracle: `.error` models `requests` raising (network failure), `.ok` an
HTTP response. Returns the list of requests issued (always exactly one)
and the result: the parsed JSON body on a 200 response, or the raised
error. A non-200 response raises
`Exception(f"API Error: {response.status_code} - {response.text}")`. -/
def CoinGeckoAPI.get_market_data (session : Request → Except String HttpResponse)
    (vs_currency : String) (per_page : Nat) : List Request × Except String JVal :=
  let endpointReq := marketDataRequest vs_currency per_page
  ([endpointReq],
    match session endpointReq with
    | .error e => .error e
    | .ok response =>
      if response.status_code = 200 then
        match response.json with
        | some v => .ok v
        | none => .error "Expecting value: line 1 column 1 (char 0)"
      else
        .error ("API Error: " ++ toString response.status_code ++ " - " ++ response.text))

/-- A Python exception raised while processing the data. -/
inductive PyError where
  | keyError (key : String)
  | attributeError (msg : String)
  | typeError (msg : String)

/-- `str(e)` for the modelled exceptions: `KeyError` prints its key in
quotes. -/
def PyError.message : PyError → String
  | .keyError key => "'" ++ key ++ "'"
  | .attributeError msg => msg
  | .typeError msg => msg

/-- Lookup in a JSON object's ordered key/value list. Python dicts keep
the last occurrence of a duplicated key (`json.loads` overwrites earlier
ones), so the last match wins. -/
def lookupKey (kvs : List (String × JVal)) (key : String) : Option JVal :=
  match kvs with
  | [] => none
  | (k, v) :: rest =>
    match lookupKey rest key with
    | some v2 => some v2
    | none => if k = key then some v else none

/-- `coin[key]`: subscripting a parsed JSON value with a string key.
A missing key raises `KeyError`; a value that is not a dict raises
`TypeError`. -/
def getItem (v : JVal) (key : String) : Except PyError JVal :=
  match v with
  | .obj kvs =>
    match lookupKey kvs key with
    | some x => .ok x
    | none => .error (.keyError key)
  | .str _ => .error (.typeError "string indices must be integers")
  | _ => .error (.typeError "object is not subscriptable")

/-- `item.get(key, default)`: only dicts have `.get`; any other value
raises `AttributeError`. -/
def dictGet (v : JVal) (key : String) (dflt : JVal) : Except PyError JVal :=
  match v with
  | .obj kvs => .ok ((lookupKey kvs key).getD dflt)
  | _ => .error (.attributeError "object has no attribute get")

/-- `for x in v`: iterating a list yields its elements, a dict its keys,
a string its one-character substrings; other values raise `TypeError`. -/
def pyIter : JVal → Except PyError (List JVal)
  | .arr xs => .ok xs
  | .obj kvs => .ok (kvs.map (fun kv => .str kv.1))
  | .str s => .ok (s.data.map (fun c => .str (String.mk [c])))
  | _ => .error (.typeError "object is not iterable")

mutual
/-- Python's `repr` on a parsed JSON value, as far as the script can
reach it (string contents are quoted without further escape refinement). -/
def pyRepr : JVal → String
  | .null => "None"
  | .bool true => "True"
  | .bool false => "False"
  | .num n => toString n
  | .str s => "'" ++ s ++ "'"
  | .arr xs => "[" ++ String.intercalate ", " (pyReprList xs) ++ "]"
  | .obj kvs => "\x7b" ++ String.intercalate ", " (pyReprObj kvs) ++ "\x7d"

/-- `repr` of the elements of a list. -/
def pyReprList : List JVal → List String
  | [] => []
  | x :: xs => pyRepr x :: pyReprList xs

/-- `repr` of the members of a dict. -/
def pyReprObj : List (String × JVal) → List String
  | [] => []
  | (k, v) :: kvs => ("'" ++ k ++ "': " ++ pyRepr v) :: pyReprObj kvs
end

/-- Python's `str` on a parsed JSON value: the string itself for a `str`,
`repr`-like rendering otherwise (`None`, `True`, decimal numbers). -/
def pyStr : JVal → String
  | .str s => s
  | v => pyRepr v

/-- `str.upper()` on an ASCII string (the script applies it to coin
symbols); a non-string value has no `.upper` and raises
`AttributeError`. -/
def pyUpper : JVal → Except PyError String
  | .str s => .ok (String.mk (s.data.map Char.toUpper))
  | _ => .error (.attributeError "object has no attribute upper")

/-- The manager simply holds the fetched data (`self.data = data`). -/
structure CryptoDataManager where
  data : JVal

/-- Apply `f` to each element in order, stopping at the first raised
exception, as a Python `for` loop over the list does. -/
def mapExc {α β ε : Type} (f : α → Except ε β) : List α → Except ε (List β)
  | [] => .ok []
  | a :: l => do
    let b ← f a
    let bs ← mapExc f l
    pure (b :: bs)

/-- One line printed by `display_data` for one coin:
`f"- {coin['name']} ({coin['symbol'].upper()}): ${coin['current_price']} | Market Cap: ${coin['market_cap']}"`,
with the fields evaluated left to right as in the f-string. -/
def displayLine (coin : JVal) : Except PyError String := do
  let name ← getItem coin "name"
  let sym ← getItem coin "symbol"
  let symU ← pyUpper sym
  let price ← getItem coin "current_price"
  let mcap ← getItem coin "market_cap"
  pure ("- " ++ pyStr name ++ " (" ++ symU ++ "): $" ++ pyStr price ++
    " | Market Cap: $" ++ pyStr mcap)

/-- `CryptoDataManager.display_data`: print a header, then one line per
coin. Returns the printed lines (or the exception raised) and the manager
as it is left afterwards. -/
def CryptoDataManager.display_data (m : CryptoDataManager) :
    Except PyError (List String) × CryptoDataManager :=
  ((do
      let coins ← pyIter m.data
      let lines ← mapExc displayLine coins
      pure ("\n📊 Top Cryptocurrencies:" :: lines)), m)

/-- `CryptoDataManager.save_to_json(filename="crypto_data.json")`: the
file name and the content `json.dump(self.data, file, indent=4)` writes,
and the manager as it is left afterwards. -/
def CryptoDataManager.save_to_json (m : CryptoDataManager) :
    (String × String) × CryptoDataManager :=
  (("crypto_data.json", dumps m.data), m)

/-- The six fields `save_to_csv` selects, in order. -/
def csvKeys : List String :=
  ["id", "symbol", "name", "current_price", "market_cap", "total_volume"]

/-- Cell string for one CSV field: the `csv` module writes `""` for
`None` and `str(value)` otherwise. -/
def csvCell : JVal → String
  | .null => ""
  | v => pyStr v

/-- One CSV data row: `writer.writerow({key: item.get(key, "") for key in keys})`,
a missing key defaulting to the empty string. -/
def csvRow (item : JVal) : Except PyError (List String) :=
  (mapExc (fun key => dictGet item key (.str "")) csvKeys).map (fun vals => vals.map csvCell)

/-- `CryptoDataManager.save_to_csv(filename="crypto_data.csv")`: the file
name and the rows written (the header row, then one row per item), and
the manager as it is left afterwards. -/
def CryptoDataManager.save_to_csv (m : CryptoDataManager) :
    Except PyError (String × List (List String)) × CryptoDataManager :=
  ((do
      let items ← pyIter m.data
      let rows ← mapExc csvRow items
      pure ("crypto_data.csv", csvKeys :: rows)), m)

/-- `CryptoDataManager.plot_market_caps`: the two list comprehensions
`[coin['name'] for coin in self.data]` and
`[coin['market_cap'] for coin in self.data]`, evaluated in that order;
the chart itself is rendered by `matplotlib` from these lists. Returns
them (or the exception raised) and the manager as it is left
afterwards. -/
def CryptoDataManager.plot_market_caps (m : CryptoDataManager) :
    Except PyError (List JVal × List JVal) × CryptoDataManager :=
  ((do
      let coins ← pyIter m.data
      let names ← mapExc (fun coin => getItem coin "name") coins
      let market_caps ← mapExc (fun coin => getItem coin "market_cap") coins
      pure (names, market_caps)), m)

/-- Quoting of one CSV cell under the writer's default `QUOTE_MINIMAL`. -/
def csvQuote (cell : String) : String :=
  if cell.data.any (fun c => c = ',' ∨ c = '"' ∨ c = '\n' ∨ c = '\r') then
    "\"" ++ String.mk (cell.data.foldr
      (fun c acc => if c = '"' then '"' :: '"' :: acc else c :: acc) []) ++ "\""
  else cell

/-- One serialized CSV line, with the writer's default `\r\n` terminator. -/
def csvLine (row : List String) : String :=
  String.intercalate "," (row.map csvQuote) ++ "\r\n"

/-- The file content the `csv` writer produces for the given rows. -/
def csvContent (rows : List (List String)) : String :=
  String.join (rows.map csvLine)

/-- The pipeline steps of `CryptoApp.run`, in source order. -/
inductive Step where
  | fetch
  | display
  | saveJson
  | saveCsv
  | plot
deriving DecidableEq

/-- The effectful surroundings of one `CryptoApp.run` call: the HTTP
session, the file system (`writeFile name content` is `some e` when the
OS write raises `e`), and the `matplotlib` backend (`showChart` is
`some e` when rendering the chart raises `e`). -/
structure Env where
  session : Request → Except String HttpResponse
  writeFile : String → String → Option String
  showChart : Option String

/-- The body of the `try` block of `CryptoApp.run`, step by step:
returns the steps completed in order, the lines printed, and the
exception that escaped the body, if any. A step that raises is not
completed and no later step runs. -/
def CryptoApp.runBody (env : Env) : List Step × List String × Option String :=
  let p0 := ["[🔄] Fetching data from CoinGecko API..."]
  match (CoinGeckoAPI.get_market_data env.session "usd" 10).2 with
  | .error e => ([], p0, some e)
  | .ok market_data =>
    let manager : CryptoDataManager := ⟨market_data⟩
    match (manager.display_data).1 with
    | .error e => ([.fetch], p0, some e.message)
    | .ok displayLines =>
      let p1 := p0 ++ displayLines
      let jsonOut := (manager.save_to_json).1
      match env.writeFile jsonOut.1 jsonOut.2 with
      | some e => ([.fetch, .display], p1, some e)
      | none =>
        let p2 := p1 ++ ["[✔] Data saved to crypto_data.json"]
        match (manager.save_to_csv).1 with
        | .error e => ([.fetch, .display, .saveJson], p2, some e.message)
        | .ok csvOut =>
          match env.writeFile csvOut.1 (csvContent csvOut.2) with
          | some e => ([.fetch, .display, .saveJson], p2, some e)
          | none =>
            let p3 := p2 ++ ["[✔] Data saved to crypto_data.csv"]
            match (manager.plot_market_caps).1 with
            | .error e => ([.fetch, .display, .saveJson, .saveCsv], p3, some e.message)
            | .ok _ =>
              match env.showChart with
              | some e => ([.fetch, .display, .saveJson, .saveCsv], p3, some e)
              | none =>
                ([.fetch, .display, .saveJson, .saveCsv, .plot],
                  p3 ++ ["[✅] Done!"], none)

/-- `CryptoApp.run`: the whole body inside a single
`try ... except Exception as e: print(f"[❌] An error occurred: {e}")`.
The `Except` in the result type is the exception `run` itself would
propagate; the handler turns every failure into a printed line, so the
result is always `.ok`. -/
def CryptoApp.run (env : Env) : Except String (List Step × List String) :=
  match CryptoApp.runBody env with
  | (steps, prints, some e) => .ok (steps, prints ++ ["[❌] An error occurred: " ++ e])
  | (steps, prints, none) => .ok (steps, prints)

/-- C1: with a 200 response, `get_market_data` returns exactly the parsed
JSON body, unmodified. -/
theorem get_market_data_200_returns_parsed_body
    (session : Request → Except String HttpResponse) (cur : String) (pp : Nat)
    (resp : HttpResponse) (v : JVal)
    (hs : session (marketDataRequest cur pp) = .ok resp)
    (h200 : resp.status_code = 200)
    (hjson : resp.json = some v) :
    (CoinGeckoAPI.get_market_data session cur pp).2 = .ok v := by
  unfold CoinGeckoAPI.get_market_data
  dsimp only
  rw [hs]
  dsimp only
  rw [if_pos h200, hjson]

/-- C1 witness: a concrete 200 response whose body is the serialization
of the empty array. -/
theorem get_market_data_200_returns_parsed_body_witness :
    (CoinGeckoAPI.get_market_data
      (fun _ => .ok ⟨200, dumps (.arr [])⟩) "usd" 10).2 = .ok (.arr []) :=
  get_market_data_200_returns_parsed_body _ "usd" 10 ⟨200, dumps (.arr [])⟩ (.arr [])
    rfl rfl (loads_dumps (.arr []))

/-- C2: with a non-200 response, `get_market_data` raises (returns no
value), and the error message contains both the status code and the body
text. -/
theorem get_market_data_non200_raises
    (session : Request → Except String HttpResponse) (cur : String) (pp : Nat)
    (resp : HttpResponse)
    (hs : session (marketDataRequest cur pp) = .ok resp)
    (hn : ¬ resp.status_code = 200) :
    ∃ e, (CoinGeckoAPI.get_market_data session cur pp).2 = .error e ∧
      (∃ a b, e = a ++ toString resp.status_code ++ b) ∧
      (∃ a b, e = a ++ resp.text ++ b) := by
  refine ⟨"API Error: " ++ toString resp.status_code ++ " - " ++ resp.text, ?_, ?_, ?_⟩
  · unfold CoinGeckoAPI.get_market_data
    dsimp only
    rw [hs]
    dsimp only
    rw [if_neg hn]
  · exact ⟨"API Error: ", " - " ++ resp.text, by rw [String.append_assoc]⟩
  · exact ⟨"API Error: " ++ toString resp.status_code ++ " - ", "", by simp⟩

/-- C2 witness: a concrete 500 response. -/
theorem get_market_data_non200_raises_witness :
    ∃ e, (CoinGeckoAPI.get_market_data
        (fun _ => .ok ⟨500, "server on fire"⟩) "usd" 10).2 = .error e ∧
      (∃ a b, e = a ++ toString 500 ++ b) ∧
      (∃ a b, e = a ++ "server on fire" ++ b) :=
  get_market_data_non200_raises _ "usd" 10 ⟨500, "server on fire"⟩ rfl (by decide)

/-- C6: every call issues exactly one GET, to the fixed `/coins/markets`
endpoint, with exactly the five documented query parameters. -/
theorem get_market_data_request_shape
    (session : Request → Except String HttpResponse) (cur : String) (pp : Nat) :
    (CoinGeckoAPI.get_market_data session cur pp).1 = [marketDataRequest cur pp] ∧
    (marketDataRequest cur pp).url = "https://api.coingecko.com/api/v3/coins/markets" ∧
    (marketDataRequest cur pp).params =
      [("vs_currency", .str cur), ("order", .str "market_cap_desc"),
       ("per_page", .nat pp), ("page", .nat 1), ("sparkline", .bool false)] :=
  ⟨rfl, rfl, rfl⟩

/-- The in-memory value the manager holds when the fetched data is a list
of records (each record one JSON object). -/
def recordsData (records : List (List (String × JVal))) : JVal :=
  .arr (records.map .obj)

/-- The CSV data row `save_to_csv` writes for one record: the six
selected fields in order, a missing field defaulting to the empty
string. -/
def recordRow (r : List (String × JVal)) : List String :=
  csvKeys.map (fun key => csvCell ((lookupKey r key).getD (.str "")))

theorem mapExc_ok {α β ε : Type} (f : α → β) (l : List α) :
    mapExc (fun a => (Except.ok (f a) : Except ε β)) l = .ok (l.map f) := by
  induction l with
  | nil => rfl
  | cons a l ih => simp [mapExc, ih]; rfl

theorem csvRow_obj (r : List (String × JVal)) : csvRow (.obj r) = .ok (recordRow r) := by
  unfold csvRow recordRow
  have h : (fun key => dictGet (.obj r) key (.str "")) =
      fun key => (Except.ok ((lookupKey r key).getD (.str "")) : Except PyError JVal) := rfl
  rw [h, mapExc_ok]
  simp [Except.map, List.map_map, Function.comp]

theorem mapExc_csvRow (records : List (List (String × JVal))) :
    mapExc csvRow (records.map JVal.obj) = .ok (records.map recordRow) := by
  induction records with
  | nil => rfl
  | cons r records ih => simp [mapExc, csvRow_obj, ih]; rfl

/-- C3: for every list of records, `save_to_csv` writes the header row
followed by exactly one row per record in order, each row being the six
columns in the fixed order, with missing fields rendered as the empty
string. -/
theorem save_to_csv_rows (records : List (List (String × JVal))) :
    (CryptoDataManager.mk (recordsData records)).save_to_csv.1 =
      .ok ("crypto_data.csv", csvKeys :: records.map recordRow) ∧
    csvKeys = ["id", "symbol", "name", "current_price", "market_cap", "total_volume"] ∧
    (records.map recordRow).length = records.length ∧
    (∀ r ∈ records, (recordRow r).length = 6) ∧
    (∀ i (h : i < records.length),
      (records.map recordRow).get ⟨i, by simpa using h⟩ =
        recordRow (records.get ⟨i, h⟩)) ∧
    (∀ r key, lookupKey r key = none →
      csvCell ((lookupKey r key).getD (.str "")) = "") := by
  refine ⟨?_, rfl, by simp, ?_, ?_, ?_⟩
  · unfold CryptoDataManager.save_to_csv recordsData
    dsimp only
    simp [pyIter, mapExc_csvRow, bind, Except.bind, Functor.map, Except.map, pure, Except.pure]
  · intro r hr
    simp [recordRow, csvKeys]
  · intro i h
    simp
  · intro r key h
    rw [h]
    rfl

/-- C3 witness: one concrete record holding only an `id` field. -/
theorem save_to_csv_rows_witness :
    (CryptoDataManager.mk (recordsData [[("id", JVal.str "btc")]])).save_to_csv.1 =
      .ok ("crypto_data.csv", csvKeys :: [[("id", JVal.str "btc")]].map recordRow) ∧
    (recordRow [("id", JVal.str "btc")]).length = 6 ∧
    csvCell ((lookupKey [("id", JVal.str "btc")] "name").getD (.str "")) = "" :=
  ⟨(save_to_csv_rows [[("id", JVal.str "btc")]]).1,
   (save_to_csv_rows [[("id", JVal.str "btc")]]).2.2.2.1 [("id", JVal.str "btc")] (by simp),
   (save_to_csv_rows [[("id", JVal.str "btc")]]).2.2.2.2.2 [("id", JVal.str "btc")] "name" rfl⟩

/-- C4: `save_to_json` writes the `indent=4` serialization of the held
list to `crypto_data.json`, and parsing the written file yields the
in-memory list again. -/
theorem save_to_json_roundtrip (records : List (List (String × JVal))) :
    (CryptoDataManager.mk (recordsData records)).save_to_json.1.1 = "crypto_data.json" ∧
    (CryptoDataManager.mk (recordsData records)).save_to_json.1.2 =
      dumps (recordsData records) ∧
    loads ((CryptoDataManager.mk (recordsData records)).save_to_json.1.2) =
      some (recordsData records) :=
  ⟨rfl, rfl, loads_dumps _⟩

/-- C7: none of the manager's operations modifies the held data; the
manager after any operation is the manager before it. -/
theorem manager_ops_preserve_data (m : CryptoDataManager) :
    (m.display_data).2 = m ∧ (m.save_to_json).2 = m ∧
    (m.save_to_csv).2 = m ∧ (m.plot_market_caps).2 = m :=
  ⟨rfl, rfl, rfl, rfl⟩

/-- C9: on a record lacking the `name` key, `display_data` and
`plot_market_caps` raise `KeyError('name')`, while `save_to_csv` on the
same record succeeds and defaults the missing fields to empty strings. -/
theorem display_plot_keyerror_on_missing_field :
    (CryptoDataManager.mk (.arr [.obj [("id", .str "btc")]])).display_data.1 =
      .error (.keyError "name") ∧
    (CryptoDataManager.mk (.arr [.obj [("id", .str "btc")]])).plot_market_caps.1 =
      .error (.keyError "name") ∧
    (CryptoDataManager.mk (.arr [.obj [("id", .str "btc")]])).save_to_csv.1 =
      .ok ("crypto_data.csv", [csvKeys, ["btc", "", "", "", "", ""]]) :=
  ⟨rfl, rfl, rfl⟩

/-- C10: with no records held, `save_to_csv` writes only the six-column
header row, and the file `save_to_json` writes parses back to the empty
list. -/
theorem empty_data_outputs :
    (CryptoDataManager.mk (.arr [])).save_to_csv.1 = .ok ("crypto_data.csv", [csvKeys]) ∧
    csvKeys.length = 6 ∧
    loads ((CryptoDataManager.mk (.arr [])).save_to_json.1.2) = some (.arr []) :=
  ⟨rfl, rfl, loads_dumps _⟩

/-- C5: `run` never propagates an exception — its result is `.ok` for
every environment — and whenever the pipeline body raises, the raised
message is printed by the single top-level handler. -/
theorem run_catches_all (env : Env) :
    (∃ out, CryptoApp.run env = .ok out) ∧
    (∀ steps prints e, CryptoApp.runBody env = (steps, prints, some e) →
      CryptoApp.run env = .ok (steps, prints ++ ["[❌] An error occurred: " ++ e])) := by
  constructor
  · rcases h : CryptoApp.runBody env with ⟨steps, prints, err⟩
    cases err with
    | none => exact ⟨(steps, prints), by unfold CryptoApp.run; rw [h]⟩
    | some e => exact ⟨(steps, prints ++ ["[❌] An error occurred: " ++ e]),
        by unfold CryptoApp.run; rw [h]⟩
  · intro steps prints e h
    unfold CryptoApp.run
    rw [h]

/-- A concrete environment whose HTTP session answers 500. -/
def env500 : Env :=
  { session := fun _ => .ok ⟨500, "oops"⟩,
    writeFile := fun _ _ => none,
    showChart := none }

/-- C5 witness: with a 500 response, `run` returns normally having
printed the API error. -/
theorem run_catches_all_witness :
    CryptoApp.run env500 =
      .ok ([], ["[🔄] Fetching data from CoinGecko API...",
        "[❌] An error occurred: API Error: 500 - oops"]) :=
  (run_catches_all env500).2 [] ["[🔄] Fetching data from CoinGecko API..."]
    "API Error: 500 - oops" rfl

/-- C8: the completed steps of any run are a prefix of the fixed sequence
fetch, display, save JSON, save CSV, plot — a step only runs after every
earlier step succeeded — and all five complete exactly when no step
failed. -/
theorem run_steps_in_order (env : Env) :
    ∃ n, n ≤ 5 ∧
      (CryptoApp.runBody env).1 =
        [Step.fetch, Step.display, Step.saveJson, Step.saveCsv, Step.plot].take n ∧
      ((CryptoApp.runBody env).2.2 = none ↔ n = 5) := by
  unfold CryptoApp.runBody
  dsimp only
  split
  · exact ⟨0, by omega, rfl, by simp⟩
  · split
    · exact ⟨1, by omega, rfl, by simp⟩
    · split
      · exact ⟨2, by omega, rfl, by simp⟩
      · split
        · exact ⟨3, by omega, rfl, by simp⟩
        · split
          · exact ⟨3, by omega, rfl, by simp⟩
          · split
            · exact ⟨4, by omega, rfl, by simp⟩
            · split
              · exact ⟨4, by omega, rfl, by simp⟩
              · exact ⟨5, by omega, rfl, by simp⟩
